import Mathlib

/-!
Verification of the AutoAuth clinical prior-authorization backend
(`backend/main.py`): PII redaction, model-response parsing, the
confidence gate, audit persistence, and the orchestrated `/analyze`
pipeline.

Modelling conventions:
* Python strings are Lean `String`s; character-level scans work on
  `String.data : List Char`.
* Python floats are modelled as exact rationals (`ℚ`).
* The regex class `\w` is modelled as ASCII alphanumeric or underscore,
  `\d` as ASCII digits, `\s` as the six ASCII whitespace characters.
* The external LLM call, `uuid4()` and `datetime.now()` are inputs of
  the pipeline function (they are environment effects in the source).
-/

namespace AutoAuth

/-- Python regex `\w` (ASCII fragment): letters, digits, underscore. -/
def isWordChar (c : Char) : Bool := c.isAlphanum || c == '_'

/-- Python regex `\d` (ASCII fragment): decimal digits. -/
def isDigitChar (c : Char) : Bool := c.isDigit

/-- Python regex `\s` (ASCII fragment): the six whitespace characters. -/
def isPySpace (c : Char) : Bool :=
  c == ' ' || c == '\t' || c == '\n' || c == '\r' || c == '\x0b' || c == '\x0c'

/-- Python substring test `needle in hay`, on character lists. -/
def containsSub (needle : List Char) : List Char → Bool
  | [] => needle.isEmpty
  | c :: cs => needle.isPrefixOf (c :: cs) || containsSub needle cs

/-- Python `str.upper()` (ASCII fragment): uppercase every character. -/
def upperStr (s : String) : String := ⟨s.data.map Char.toUpper⟩

/-- Line 110 of `main.py`:
`decision = "APPROVED" if "DECISION: APPROVED" in raw_response.upper() else "DENIED"`. -/
def parseDecision (raw : String) : String :=
  if containsSub "DECISION: APPROVED".data (upperStr raw).data then "APPROVED" else "DENIED"

/-- One attempted match of `CONFIDENCE:\s*([\d\.]+)` anchored at the head of `l`:
the literal marker, then greedy `\s*`, then the group `[\d\.]+` which must be
non-empty.  Backtracking over `\s*` cannot rescue a failed match because no
whitespace character is in the class `[\d\.]`, so a shorter `\s*` still leaves
a non-`[\d\.]` character first. -/
def confMatchAt (l : List Char) : Option (List Char) :=
  if "CONFIDENCE:".data.isPrefixOf l then
    let tok := ((l.drop 11).dropWhile isPySpace).takeWhile fun c => isDigitChar c || c == '.'
    if tok.isEmpty then none else some tok
  else none

/-- Python `re.search(r"CONFIDENCE:\s*([\d\.]+)", raw)`: scan start positions left to
right and return the captured group of the first position that matches. -/
def findConfToken : List Char → Option (List Char)
  | [] => none
  | c :: cs =>
    match confMatchAt (c :: cs) with
    | some tok => some tok
    | none => findConfToken cs

/-- Value of a digit string, most significant digit first. -/
def digitsToNat (l : List Char) : ℕ := l.foldl (fun a c => 10 * a + (c.toNat - 48)) 0

/-- Decomposition of a `[\d\.]+` token accepted by Python `float()`:
integer-part value, fraction-part value, fraction length.  `float()` accepts
such a token iff it has at most one dot and at least one digit (`"5."` and
`".5"` parse; `"."` and `"1.2.3"` raise `ValueError`). -/
def pyFloatParts (l : List Char) : Option (ℕ × ℕ × ℕ) :=
  if l.count '.' == 0 then
    if l.isEmpty then none else some (digitsToNat l, 0, 0)
  else if l.count '.' == 1 then
    let ip := l.takeWhile fun c => c != '.'
    let fp := (l.dropWhile fun c => c != '.').tail
    if ip.isEmpty && fp.isEmpty then none
    else some (digitsToNat ip, digitsToNat fp, fp.length)
  else none

/-- Rational value of a decomposed decimal token. -/
def decimalVal (p : ℕ × ℕ × ℕ) : ℚ := p.1 + (p.2.1 : ℚ) / (10 : ℚ) ^ p.2.2

/-- Python `float()` on a `[\d\.]+` token, as an exact rational. -/
def pyFloat (l : List Char) : Option ℚ := (pyFloatParts l).map decimalVal

/-- Lines 113-121 of `main.py`: `confidence = 0.95` default, overwritten only when
the regex finds a token and `float()` accepts it (`except: pass` keeps 0.95). -/
def parseConfidence (raw : String) : ℚ :=
  match findConfToken raw.data with
  | none => 0.95
  | some tok =>
    match pyFloat tok with
    | none => 0.95
    | some q => q

/-- The literal `0.80` of `main.py` line 124. -/
def CONFIDENCE_THRESHOLD : ℚ := 0.80

/-- Lines 123-126 of `main.py`: the confidence gate over (decision, confidence),
returning the final (decision, status) pair. -/
def gateDecision (decision : String) (confidence : ℚ) : String × String :=
  if confidence < CONFIDENCE_THRESHOLD then ("PENDING_REVIEW", "PENDING_HUMAN_REVIEW")
  else (decision, "COMPLETED")

/-- Final (decision, status) of the parse + gate stages for a raw response. -/
def finalPair (raw : String) : String × String :=
  gateDecision (parseDecision raw) (parseConfidence raw)

/-! ### Helper lemmas about the parsing layer -/

theorem parseDecision_approved_iff (raw : String) :
    parseDecision raw = "APPROVED" ↔
      containsSub "DECISION: APPROVED".data (upperStr raw).data = true := by
  unfold parseDecision
  split
  · simp_all
  · simp_all

theorem parseDecision_cases (raw : String) :
    parseDecision raw = "APPROVED" ∨ parseDecision raw = "DENIED" := by
  unfold parseDecision
  split
  · exact Or.inl rfl
  · exact Or.inr rfl

theorem parseDecision_ne_pending (raw : String) :
    parseDecision raw ≠ "PENDING_REVIEW" := by
  rcases parseDecision_cases raw with h | h <;> rw [h] <;> decide

theorem parseConfidence_default (raw : String)
    (h : findConfToken raw.data = none ∨
         ∃ tok, findConfToken raw.data = some tok ∧ pyFloat tok = none) :
    parseConfidence raw = 0.95 := by
  unfold parseConfidence
  rcases h with h | ⟨tok, h1, h2⟩
  · rw [h]
  · rw [h1]
    simp only [h2]

theorem gateDecision_high (d : String) (c : ℚ) (h : ¬ c < CONFIDENCE_THRESHOLD) :
    gateDecision d c = (d, "COMPLETED") := by
  unfold gateDecision
  rw [if_neg h]

theorem gateDecision_low (d : String) (c : ℚ) (h : c < CONFIDENCE_THRESHOLD) :
    gateDecision d c = ("PENDING_REVIEW", "PENDING_HUMAN_REVIEW") := by
  unfold gateDecision
  rw [if_pos h]

/-! ### Claim C1: the confidence gate is an exact iff -/

/-- C1. For every raw model response, the final (decision, status) pair is
(PENDING_REVIEW, PENDING_HUMAN_REVIEW) iff the parsed confidence is < 0.80;
the decision is PENDING_REVIEW iff the status is PENDING_HUMAN_REVIEW (the two
are never set independently); and at confidence ≥ 0.80 the parsed decision is
returned unchanged with status COMPLETED. -/
theorem confidence_gate_iff (raw : String) :
    (((finalPair raw).1 = "PENDING_REVIEW" ∧ (finalPair raw).2 = "PENDING_HUMAN_REVIEW")
        ↔ parseConfidence raw < 0.80) ∧
    ((finalPair raw).1 = "PENDING_REVIEW" ↔ (finalPair raw).2 = "PENDING_HUMAN_REVIEW") ∧
    (0.80 ≤ parseConfidence raw → finalPair raw = (parseDecision raw, "COMPLETED")) := by
  unfold finalPair
  by_cases h : parseConfidence raw < CONFIDENCE_THRESHOLD
  · rw [gateDecision_low _ _ h]
    have h8 : parseConfidence raw < 0.80 := h
    refine ⟨by simpa using h8, by simp, fun hle => absurd h8 (not_lt.mpr hle)⟩
  · rw [gateDecision_high _ _ h]
    have h8 : ¬ parseConfidence raw < 0.80 := h
    refine ⟨?_, ?_, fun _ => rfl⟩
    · constructor
      · rintro ⟨-, h2⟩
        have h2c : ("COMPLETED" : String) = "PENDING_HUMAN_REVIEW" := h2
        exact absurd h2c (by decide)
      · intro hlt
        exact absurd hlt h8
    · constructor
      · intro h1
        exact absurd h1 (parseDecision_ne_pending raw)
      · intro h2
        have h2c : ("COMPLETED" : String) = "PENDING_HUMAN_REVIEW" := h2
        exact absurd h2c (by decide)

/-- Witness for C1 at a concrete low-confidence response. -/
theorem confidence_gate_iff_witness :
    (0.80 ≤ parseConfidence "DECISION: APPROVED\nCONFIDENCE: 0.9" →
      finalPair "DECISION: APPROVED\nCONFIDENCE: 0.9" =
        (parseDecision "DECISION: APPROVED\nCONFIDENCE: 0.9", "COMPLETED")) ∧
    (((finalPair "X").1 = "PENDING_REVIEW" ∧ (finalPair "X").2 = "PENDING_HUMAN_REVIEW")
        ↔ parseConfidence "X" < 0.80) :=
  ⟨(confidence_gate_iff "DECISION: APPROVED\nCONFIDENCE: 0.9").2.2,
   (confidence_gate_iff "X").1⟩

/-! ### Claim C4: conservative default to DENIED -/

/-- C4. The parsed decision is APPROVED exactly when the uppercased response
contains the marker "DECISION: APPROVED"; the only other value is DENIED, and
the empty response parses as DENIED. -/
theorem decision_default_denied (raw : String) :
    (parseDecision raw = "APPROVED" ↔
        containsSub "DECISION: APPROVED".data (upperStr raw).data = true) ∧
    (parseDecision raw = "APPROVED" ∨ parseDecision raw = "DENIED") ∧
    parseDecision "" = "DENIED" :=
  ⟨parseDecision_approved_iff raw, parseDecision_cases raw, by decide⟩

/-- Witness for C4 at concrete marker-free and marker-bearing responses. -/
theorem decision_default_denied_witness :
    (parseDecision "The claim should be approved." = "APPROVED" ∨
      parseDecision "The claim should be approved." = "DENIED") ∧
    parseDecision "" = "DENIED" :=
  ⟨(decision_default_denied "The claim should be approved.").2.1,
   (decision_default_denied "x").2.2⟩

/-! ### Claim C5: confidence fallback 0.95 -/

/-- C5. If no CONFIDENCE token is found, or the token fails Python float
parsing, the confidence is exactly 0.95 and the gate leaves the parsed
decision in force with status COMPLETED. -/
theorem confidence_fallback_095 (raw : String)
    (h : findConfToken raw.data = none ∨
         ∃ tok, findConfToken raw.data = some tok ∧ pyFloat tok = none) :
    parseConfidence raw = 0.95 ∧ finalPair raw = (parseDecision raw, "COMPLETED") := by
  have hc := parseConfidence_default raw h
  refine ⟨hc, ?_⟩
  unfold finalPair
  rw [hc]
  refine gateDecision_high _ _ ?_
  unfold CONFIDENCE_THRESHOLD
  norm_num

/-- Witness for C5: a response with no CONFIDENCE marker, and one whose token
".." fails float parsing. -/
theorem confidence_fallback_095_witness :
    (parseConfidence "DECISION: DENIED\nREASON: no PT" = 0.95 ∧
      finalPair "DECISION: DENIED\nREASON: no PT" =
        (parseDecision "DECISION: DENIED\nREASON: no PT", "COMPLETED")) ∧
    parseConfidence "CONFIDENCE: .." = 0.95 :=
  ⟨confidence_fallback_095 "DECISION: DENIED\nREASON: no PT" (Or.inl (by decide)),
   (confidence_fallback_095 "CONFIDENCE: .."
      (Or.inr ⟨['.', '.'], by decide, by decide⟩)).1⟩

/-! ### Claim C10: the decision match is not anchored -/

/-- C10. The decision match is a bare substring test on the uppercased full
response: a negated mention inside a REASON section still parses as APPROVED,
while a two-space variant of the marker parses as DENIED. -/
theorem decision_match_unanchored :
    (∀ raw : String, parseDecision raw = "APPROVED" ↔
        containsSub "DECISION: APPROVED".data (upperStr raw).data = true) ∧
    parseDecision "REASON: we cannot output DECISION: APPROVED here" = "APPROVED" ∧
    parseDecision "DECISION:  APPROVED" = "DENIED" :=
  ⟨parseDecision_approved_iff, by decide, by decide⟩

/-- Witness for C10 applied at a concrete response. -/
theorem decision_match_unanchored_witness :
    parseDecision "decision: approved" = "APPROVED" :=
  (decision_match_unanchored.1 "decision: approved").mpr (by decide)

/-! ### The redaction layer (`redact_pii`, lines 57-61) -/

/-- The literal part of the pattern `Patient: \w+` (9 characters). -/
def patientPat : List Char := "Patient: ".data

/-- The replacement text of the first substitution (19 characters). -/
def patientRepl : List Char := "Patient: [REDACTED]".data

/-- The literal part of the pattern `ID: \d+` (4 characters). -/
def idPat : List Char := "ID: ".data

/-- The replacement text of the second substitution (14 characters). -/
def idRepl : List Char := "ID: [REDACTED]".data

/-- Does the list start with a word character? -/
def headIsWord : List Char → Bool
  | d :: _ => isWordChar d
  | [] => false

/-- Does the list start with a digit? -/
def headIsDigit : List Char → Bool
  | d :: _ => isDigitChar d
  | [] => false

/-- Head-anchored test for `Patient: \w+`: the literal then a word character. -/
def matchesPatient (l : List Char) : Bool :=
  patientPat.isPrefixOf l && headIsWord (l.drop 9)

/-- Head-anchored test for `ID: \d+`: the literal then a digit. -/
def matchesId (l : List Char) : Bool :=
  idPat.isPrefixOf l && headIsDigit (l.drop 4)

/-- Python `re.sub(r"Patient: \w+", "Patient: [REDACTED]", text)`: scan left to
right; at each match replace the literal plus the greedy `\w+` run and resume
after it; otherwise copy one character. -/
def subPatient : List Char → List Char
  | [] => []
  | c :: cs =>
    if matchesPatient (c :: cs) then
      patientRepl ++ subPatient (((c :: cs).drop 9).dropWhile isWordChar)
    else
      c :: subPatient cs
termination_by l => l.length
decreasing_by
  · calc (((c :: cs).drop 9).dropWhile isWordChar).length
        ≤ ((c :: cs).drop 9).length := (List.dropWhile_suffix _).sublist.length_le
      _ ≤ (c :: cs).length - 9 := by rw [List.length_drop]
      _ < (c :: cs).length := Nat.sub_lt (by simp) (by norm_num)
  · simp

/-- Python `re.sub(r"ID: \d+", "ID: [REDACTED]", text)`, same scheme. -/
def subId : List Char → List Char
  | [] => []
  | c :: cs =>
    if matchesId (c :: cs) then
      idRepl ++ subId (((c :: cs).drop 4).dropWhile isDigitChar)
    else
      c :: subId cs
termination_by l => l.length
decreasing_by
  · calc (((c :: cs).drop 4).dropWhile isDigitChar).length
        ≤ ((c :: cs).drop 4).length := (List.dropWhile_suffix _).sublist.length_le
      _ ≤ (c :: cs).length - 4 := by rw [List.length_drop]
      _ < (c :: cs).length := Nat.sub_lt (by simp) (by norm_num)
  · simp

/-- Lines 57-61 of `main.py`: the Patient substitution then the ID one. -/
def redact_pii (s : String) : String := ⟨subId (subPatient s.data)⟩

/-! ### JSON documents and the audit store -/

/-- JSON documents (the `dict` values of the source); numbers are restricted
to integers, which covers the bundles this repository constructs. -/
inductive JsonValue where
  | jnull : JsonValue
  | jbool : Bool → JsonValue
  | jnum : Int → JsonValue
  | jstr : String → JsonValue
  | jarr : List JsonValue → JsonValue
  | jobj : List (String × JsonValue) → JsonValue

/-- JSON string escaping used by `json.dumps` (the common escapes; other
control characters are left as-is here, no bundle in the repo contains any). -/
def escapeChar (c : Char) : String :=
  if c == '"' then "\\\"" else if c == '\\' then "\\\\"
  else if c == '\n' then "\\n" else if c == '\t' then "\\t"
  else if c == '\r' then "\\r" else String.singleton c

/-- Escape every character of a JSON string body. -/
def escapeStr (s : String) : String := String.join (s.data.map escapeChar)

mutual

/-- Python `json.dumps` with its default separators `", "` and `": "`. -/
def dumps : JsonValue → String
  | .jnull => "null"
  | .jbool true => "true"
  | .jbool false => "false"
  | .jnum n => toString n
  | .jstr s => "\"" ++ escapeStr s ++ "\""
  | .jarr xs => "[" ++ dumpsList xs ++ "]"
  | .jobj kvs => "\x7b" ++ dumpsObj kvs ++ "\x7d"

/-- Comma-joined array elements. -/
def dumpsList : List JsonValue → String
  | [] => ""
  | [x] => dumps x
  | x :: y :: rest => dumps x ++ ", " ++ dumpsList (y :: rest)

/-- Comma-joined `"key": value` pairs. -/
def dumpsObj : List (String × JsonValue) → String
  | [] => ""
  | [(k, v)] => "\"" ++ escapeStr k ++ "\": " ++ dumps v
  | (k, v) :: kv :: rest =>
      "\"" ++ escapeStr k ++ "\": " ++ dumps v ++ ", " ++ dumpsObj (kv :: rest)

end

/-- The audit record of `main.py` lines 46-54 (confidence as exact rational). -/
structure AuditEntry where
  case_id : String
  timestamp : String
  input_snapshot : JsonValue
  decision : String
  reasoning : String
  confidence : ℚ
  schema_version : String := "v1.0"
  status : String := "COMPLETED"

/-- State of `../data/audit_log.json`: absent, present but unparseable, or a
parsed ordered list of entries.  JSON round-tripping of entries is taken as
faithful, so entries are stored directly. -/
inductive AuditFile where
  | absent : AuditFile
  | corrupt : AuditFile
  | entries : List AuditEntry → AuditFile

/-- The lenient read inside `save_to_audit_log` (lines 65-71): a missing file
or a `json.JSONDecodeError` both leave `logs = []`. -/
def readLogsLenient : AuditFile → List AuditEntry
  | .absent => []
  | .corrupt => []
  | .entries l => l

/-- Lines 64-75 of `main.py`: whole-file read-modify-write append. -/
def save_to_audit_log (f : AuditFile) (entry : AuditEntry) : AuditFile :=
  .entries (readLogsLenient f ++ [entry])

/-- Lines 147-153 of `main.py` (`GET /audit`): `[]` when the file is absent,
otherwise a bare `json.load` whose `JSONDecodeError` on a corrupt file escapes
as an unhandled exception (an HTTP 500 at the framework boundary). -/
def get_audit_trail : AuditFile → Except String (List AuditEntry)
  | .absent => .ok []
  | .corrupt => .error "json.decoder.JSONDecodeError"
  | .entries l => .ok l

/-! ### The orchestrated `/analyze` pipeline -/

/-- Request body of `POST /analyze` (lines 42-44). -/
structure AnalysisRequest where
  fhir_bundle : JsonValue
  policy : String

/-- The user message of line 103: `f"POLICY: {policy}\n\nDATA: {safe}"`. -/
def userMessage (policy safeData : String) : String :=
  "POLICY: " ++ policy ++ "\n\nDATA: " ++ safeData

/-- Lines 86-145 of `main.py` (`analyze_claim`), parameterized by the LLM
transport `llm` (returning the raw response text, or the message of a raised
exception), the generated `uuid4` and the `datetime.now` timestamp.  Returns
the HTTP outcome — the entry on 200, or the HTTP 500 `detail` string on
failure — paired with the resulting audit file state. -/
def analyze_claim (llm : String → Except String String)
    (caseId timestamp : String) (f : AuditFile) (req : AnalysisRequest) :
    Except String AuditEntry × AuditFile :=
  let raw_clinical_data := dumps req.fhir_bundle
  let safe_clinical_data := redact_pii raw_clinical_data
  match llm (userMessage req.policy safe_clinical_data) with
  | .error e => (.error ("Pipeline Failure: " ++ e), f)
  | .ok raw_response =>
    let decision := parseDecision raw_response
    let confidence := parseConfidence raw_response
    let pair := gateDecision decision confidence
    let entry : AuditEntry :=
      { case_id := caseId
        timestamp := timestamp
        input_snapshot := req.fhir_bundle
        decision := pair.1
        reasoning := raw_response
        confidence := confidence
        status := pair.2 }
    (.ok entry, save_to_audit_log f entry)

/-! ### Claim C3: uniform pipeline failure, no partial persistence -/

/-- C3. If the model invocation stage raises, the caller gets exactly the
uniform failure `"Pipeline Failure: <message>"` (the HTTP 500 detail) and the
audit file is unchanged. -/
theorem pipeline_failure_uniform (llm : String → Except String String)
    (caseId timestamp : String) (f : AuditFile) (req : AnalysisRequest) (e : String)
    (h : llm (userMessage req.policy (redact_pii (dumps req.fhir_bundle))) = .error e) :
    analyze_claim llm caseId timestamp f req = (.error ("Pipeline Failure: " ++ e), f) := by
  simp only [analyze_claim]
  rw [h]

/-- Witness for C3 with a transport that raises. -/
theorem pipeline_failure_uniform_witness :
    analyze_claim (fun _ => .error "connection refused") "id-3" "t-3"
        (.entries []) ⟨.jobj [("note", .jstr "x")], "pol"⟩ =
      (.error ("Pipeline Failure: " ++ "connection refused"), .entries []) :=
  pipeline_failure_uniform _ "id-3" "t-3" (.entries [])
    ⟨.jobj [("note", .jstr "x")], "pol"⟩ "connection refused" rfl

/-! ### Claim C6: append round-trip -/

/-- C6. For every prior store state whose listing succeeds, appending `e` and
listing again yields exactly the previous entries with `e` at the end. -/
theorem audit_append_roundtrip (f : AuditFile) (l : List AuditEntry) (e : AuditEntry)
    (h : get_audit_trail f = .ok l) :
    get_audit_trail (save_to_audit_log f e) = .ok (l ++ [e]) := by
  cases f with
  | absent => cases h; rfl
  | corrupt => cases h
  | entries xs => cases h; rfl

/-- Witness for C6 on a store already holding one entry. -/
theorem audit_append_roundtrip_witness :
    get_audit_trail
        (save_to_audit_log
          (.entries [{ case_id := "a", timestamp := "t0", input_snapshot := .jnull,
                       decision := "DENIED", reasoning := "r0", confidence := 0.9 }])
          { case_id := "b", timestamp := "t1", input_snapshot := .jnull,
            decision := "APPROVED", reasoning := "r1", confidence := 0.85 }) =
      .ok [{ case_id := "a", timestamp := "t0", input_snapshot := .jnull,
             decision := "DENIED", reasoning := "r0", confidence := 0.9 },
           { case_id := "b", timestamp := "t1", input_snapshot := .jnull,
             decision := "APPROVED", reasoning := "r1", confidence := 0.85 }] :=
  audit_append_roundtrip
    (.entries [{ case_id := "a", timestamp := "t0", input_snapshot := .jnull,
                 decision := "DENIED", reasoning := "r0", confidence := 0.9 }])
    [{ case_id := "a", timestamp := "t0", input_snapshot := .jnull,
       decision := "DENIED", reasoning := "r0", confidence := 0.9 }]
    { case_id := "b", timestamp := "t1", input_snapshot := .jnull,
      decision := "APPROVED", reasoning := "r1", confidence := 0.85 } rfl

/-! ### Claim C7: read leniency (corrected) -/

/-- C7 counterexample. On a corrupt (unparseable) stored document, `GET /audit`
does not return the empty array: the bare `json.load` raises and the request
fails, contradicting the claim that a corrupt document is treated as an empty
collection on every read. -/
theorem audit_corrupt_get_error :
    get_audit_trail .corrupt = .error "json.decoder.JSONDecodeError" := rfl

/-- C7 amended. The read inside `append` treats both a missing and a corrupt
document as an empty collection, and `GET /audit` returns `[]` for a missing
document; but `GET /audit` on a corrupt document raises instead of returning
the empty collection. -/
theorem audit_read_leniency_amended :
    readLogsLenient .absent = [] ∧ readLogsLenient .corrupt = [] ∧
    (∀ e, save_to_audit_log .absent e = .entries [e]) ∧
    (∀ e, save_to_audit_log .corrupt e = .entries [e]) ∧
    get_audit_trail .absent = .ok [] ∧
    get_audit_trail .corrupt = .error "json.decoder.JSONDecodeError" :=
  ⟨rfl, rfl, fun _ => rfl, fun _ => rfl, rfl, rfl⟩

/-! ### Claim C8: snapshot is pre-redaction, model sees redacted text -/

/-- C8. On every successful run the stored entry's `input_snapshot` is the
original bundle verbatim, while the text the model received (and whose raw
response is stored as `reasoning`) embeds the redacted serialization — the
hypothesis pins the model input to `redact_pii (dumps bundle)`. -/
theorem snapshot_unredacted (llm : String → Except String String)
    (caseId timestamp : String) (f : AuditFile) (req : AnalysisRequest) (raw : String)
    (h : llm (userMessage req.policy (redact_pii (dumps req.fhir_bundle))) = .ok raw) :
    ∃ entry f2, analyze_claim llm caseId timestamp f req = (.ok entry, f2) ∧
      entry.input_snapshot = req.fhir_bundle ∧ entry.reasoning = raw := by
  simp only [analyze_claim, h]
  exact ⟨_, _, rfl, rfl, rfl⟩

/-- Witness for C8: a bundle whose serialization is actually changed by
redaction; the snapshot keeps the original while the model-facing text holds
`[REDACTED]`. -/
theorem snapshot_unredacted_witness :
    (∃ entry f2,
      analyze_claim (fun _ => .ok "DECISION: APPROVED\nCONFIDENCE: 0.9") "id-4" "t-4"
          .absent ⟨.jobj [("note", .jstr "Patient: John seen.")], "pol"⟩ =
        (.ok entry, f2) ∧
      entry.input_snapshot = .jobj [("note", .jstr "Patient: John seen.")] ∧
      entry.reasoning = "DECISION: APPROVED\nCONFIDENCE: 0.9") ∧
    redact_pii (dumps (.jobj [("note", .jstr "Patient: John seen.")])) =
      "\x7b\"note\": \"Patient: [REDACTED] seen.\"\x7d" :=
  ⟨snapshot_unredacted _ "id-4" "t-4" .absent
      ⟨.jobj [("note", .jstr "Patient: John seen.")], "pol"⟩
      "DECISION: APPROVED\nCONFIDENCE: 0.9" rfl,
   by simp +decide [redact_pii, dumps, dumpsObj, escapeStr, escapeChar, String.join,
     subPatient, subId, matchesPatient, matchesId, headIsWord, headIsDigit,
     patientPat, patientRepl, idPat, idRepl, isWordChar, isDigitChar, String.data]⟩

/-! ### Claim C2: out-of-range confidence is stored as-is (code bug) -/

/-- C2 (code bug). The failing input: a model response carrying
`CONFIDENCE: 5.0`.  The parser stores 5.0 unclamped, the gate treats it as
high confidence (COMPLETED), and the persisted entry carries confidence 5,
outside [0, 1] — the code has no clamp, contrary to the stated invariant. -/
theorem out_of_range_confidence_stored :
    parseConfidence "DECISION: DENIED\nCONFIDENCE: 5.0" = 5 ∧
    ((analyze_claim (fun _ => .ok "DECISION: DENIED\nCONFIDENCE: 5.0") "id-5" "t-5"
        .absent ⟨.jobj [("note", .jstr "knee MRI")], "pol"⟩).1.map
          AuditEntry.confidence = .ok 5) ∧
    ((analyze_claim (fun _ => .ok "DECISION: DENIED\nCONFIDENCE: 5.0") "id-5" "t-5"
        .absent ⟨.jobj [("note", .jstr "knee MRI")], "pol"⟩).1.map
          AuditEntry.status = .ok "COMPLETED") ∧
    ¬ (5 : ℚ) ≤ 1 := by
  have htok : findConfToken "DECISION: DENIED\nCONFIDENCE: 5.0".data =
      some ['5', '.', '0'] := by decide
  have hparts : pyFloatParts ['5', '.', '0'] = some (5, 0, 1) := by decide
  have hval : decimalVal (5, 0, 1) = 5 := by
    unfold decimalVal
    norm_num
  have hconf : parseConfidence "DECISION: DENIED\nCONFIDENCE: 5.0" = 5 := by
    simp only [parseConfidence, pyFloat, htok, hparts, Option.map]
    exact hval
  have hgate : gateDecision (parseDecision "DECISION: DENIED\nCONFIDENCE: 5.0")
      (parseConfidence "DECISION: DENIED\nCONFIDENCE: 5.0") =
      (parseDecision "DECISION: DENIED\nCONFIDENCE: 5.0", "COMPLETED") := by
    refine gateDecision_high _ _ ?_
    rw [hconf]
    unfold CONFIDENCE_THRESHOLD
    norm_num
  refine ⟨hconf, ?_, ?_, by norm_num⟩
  · simp only [analyze_claim, Option.map, Except.map]
    rw [hconf]
  · simp only [analyze_claim, Option.map, Except.map, hgate]

/-! ### Claim C9: redaction idempotence

The substituted placeholder text is not re-matched: no replacement contains a
later `Patient: `-plus-word-character or `ID: `-plus-digit occurrence, and the
replacement shares its literal prefix with the text it replaces, so a second
pass over already-redacted text finds nothing.  The development below proves
that each pass leaves no match of its own pattern behind, that the ID pass
cannot create a Patient match, and hence that the composite is idempotent. -/

/-- Does `Patient: \w+` match anywhere in the list? -/
def hasMatchPatient : List Char → Bool
  | [] => false
  | c :: cs => matchesPatient (c :: cs) || hasMatchPatient cs

/-- Does `ID: \d+` match anywhere in the list? -/
def hasMatchId : List Char → Bool
  | [] => false
  | c :: cs => matchesId (c :: cs) || hasMatchId cs

theorem matchesPatient_cons (c : Char) (w : List Char) :
    matchesPatient (c :: w) =
      ((('P' == c) && List.isPrefixOf "atient: ".data w) && headIsWord (w.drop 8)) := rfl

theorem matchesId_cons (c : Char) (w : List Char) :
    matchesId (c :: w) =
      ((('I' == c) && List.isPrefixOf "D: ".data w) && headIsDigit (w.drop 3)) := rfl

theorem hasMatchPatient_patientRepl_append (w : List Char) :
    hasMatchPatient (patientRepl ++ w) = hasMatchPatient w := rfl

theorem hasMatchPatient_idRepl_append (w : List Char) :
    hasMatchPatient (idRepl ++ w) = hasMatchPatient w := rfl

theorem hasMatchId_idRepl_append (w : List Char) :
    hasMatchId (idRepl ++ w) = hasMatchId w := rfl

theorem hasMatchPatient_cons_false (c : Char) (cs : List Char)
    (h : hasMatchPatient (c :: cs) = false) :
    matchesPatient (c :: cs) = false ∧ hasMatchPatient cs = false :=
  Bool.or_eq_false_iff.mp (by simpa [hasMatchPatient] using h)

theorem hasMatchId_cons_false (c : Char) (cs : List Char)
    (h : hasMatchId (c :: cs) = false) :
    matchesId (c :: cs) = false ∧ hasMatchId cs = false :=
  Bool.or_eq_false_iff.mp (by simpa [hasMatchId] using h)

theorem hasMatchPatient_suffix (l l2 : List Char) (hs : l2 <:+ l)
    (h : hasMatchPatient l = false) : hasMatchPatient l2 = false := by
  induction l with
  | nil => rw [List.suffix_nil.mp hs]; exact h
  | cons c cs ih =>
    rcases List.suffix_cons_iff.mp hs with h1 | h1
    · rw [h1]; exact h
    · exact ih h1 (hasMatchPatient_cons_false c cs h).2

theorem subPatient_of_no_match (l : List Char) (h : hasMatchPatient l = false) :
    subPatient l = l := by
  induction l with
  | nil => simp only [subPatient]
  | cons c cs ih =>
    obtain ⟨h1, h2⟩ := hasMatchPatient_cons_false c cs h
    simp only [subPatient, h1, Bool.false_eq_true, if_false]
    rw [ih h2]

theorem subId_of_no_match (l : List Char) (h : hasMatchId l = false) :
    subId l = l := by
  induction l with
  | nil => simp only [subId]
  | cons c cs ih =>
    obtain ⟨h1, h2⟩ := hasMatchId_cons_false c cs h
    simp only [subId, h1, Bool.false_eq_true, if_false]
    rw [ih h2]

theorem prefix_through_subId (s : List Char) (hI : ∀ c ∈ s, c ≠ 'I') :
    ∀ l, s.isPrefixOf (subId l) = true →
      s.isPrefixOf l = true ∧ (subId l).drop s.length = subId (l.drop s.length) := by
  induction s with
  | nil =>
    intro l _
    exact ⟨by cases l <;> rfl, rfl⟩
  | cons a s2 ih =>
    intro l hpre
    cases l with
    | nil =>
      rw [show subId [] = [] from by simp only [subId]] at hpre
      simp [List.isPrefixOf] at hpre
    | cons c cs =>
      by_cases hm : matchesId (c :: cs) = true
      · exfalso
        rw [show subId (c :: cs) =
              idRepl ++ subId (((c :: cs).drop 4).dropWhile isDigitChar) from by
            simp only [subId, hm, if_true]] at hpre
        have hre : idRepl ++ subId (((c :: cs).drop 4).dropWhile isDigitChar) =
            'I' :: ("D: [REDACTED]".data ++
              subId (((c :: cs).drop 4).dropWhile isDigitChar)) := rfl
        rw [hre] at hpre
        simp only [List.isPrefixOf, Bool.and_eq_true] at hpre
        exact hI a (List.mem_cons_self a s2) (by simpa using hpre.1)
      · have hm2 : matchesId (c :: cs) = false := by simpa using hm
        have hsub : subId (c :: cs) = c :: subId cs := by
          simp only [subId, hm2, Bool.false_eq_true, if_false]
        rw [hsub] at hpre
        simp only [List.isPrefixOf, Bool.and_eq_true] at hpre
        obtain ⟨hac, hpre2⟩ := hpre
        obtain ⟨ih1, ih2⟩ := ih (fun c2 hc => hI c2 (List.mem_cons_of_mem a hc)) cs hpre2
        refine ⟨?_, ?_⟩
        · simp only [List.isPrefixOf, Bool.and_eq_true]
          exact ⟨hac, ih1⟩
        · rw [hsub]
          simp only [List.length_cons, List.drop_succ_cons]
          exact ih2

theorem prefix_through_subPatient (s : List Char) (hP : ∀ c ∈ s, c ≠ 'P') :
    ∀ l, s.isPrefixOf (subPatient l) = true →
      s.isPrefixOf l = true ∧ (subPatient l).drop s.length = subPatient (l.drop s.length) := by
  induction s with
  | nil =>
    intro l _
    exact ⟨by cases l <;> rfl, rfl⟩
  | cons a s2 ih =>
    intro l hpre
    cases l with
    | nil =>
      rw [show subPatient [] = [] from by simp only [subPatient]] at hpre
      simp [List.isPrefixOf] at hpre
    | cons c cs =>
      by_cases hm : matchesPatient (c :: cs) = true
      · exfalso
        rw [show subPatient (c :: cs) =
              patientRepl ++ subPatient (((c :: cs).drop 9).dropWhile isWordChar) from by
            simp only [subPatient, hm, if_true]] at hpre
        have hre : patientRepl ++ subPatient (((c :: cs).drop 9).dropWhile isWordChar) =
            'P' :: ("atient: [REDACTED]".data ++
              subPatient (((c :: cs).drop 9).dropWhile isWordChar)) := rfl
        rw [hre] at hpre
        simp only [List.isPrefixOf, Bool.and_eq_true] at hpre
        exact hP a (List.mem_cons_self a s2) (by simpa using hpre.1)
      · have hm2 : matchesPatient (c :: cs) = false := by simpa using hm
        have hsub : subPatient (c :: cs) = c :: subPatient cs := by
          simp only [subPatient, hm2, Bool.false_eq_true, if_false]
        rw [hsub] at hpre
        simp only [List.isPrefixOf, Bool.and_eq_true] at hpre
        obtain ⟨hac, hpre2⟩ := hpre
        obtain ⟨ih1, ih2⟩ := ih (fun c2 hc => hP c2 (List.mem_cons_of_mem a hc)) cs hpre2
        refine ⟨?_, ?_⟩
        · simp only [List.isPrefixOf, Bool.and_eq_true]
          exact ⟨hac, ih1⟩
        · rw [hsub]
          simp only [List.length_cons, List.drop_succ_cons]
          exact ih2

theorem matchesPatient_cons_subId (c : Char) (cs : List Char)
    (h : matchesPatient (c :: cs) = false) :
    matchesPatient (c :: subId cs) = false := by
  by_contra hx
  rw [Bool.not_eq_false, matchesPatient_cons] at hx
  simp only [Bool.and_eq_true] at hx
  obtain ⟨⟨hP, hpre⟩, hw⟩ := hx
  obtain ⟨hpre2, hdropEq⟩ := prefix_through_subId "atient: ".data (by decide) cs hpre
  have hlen : ("atient: ".data).length = 8 := rfl
  rw [hlen] at hdropEq
  rw [hdropEq] at hw
  have hfull : matchesPatient (c :: cs) = true := by
    rw [matchesPatient_cons]
    simp only [Bool.and_eq_true]
    refine ⟨⟨hP, hpre2⟩, ?_⟩
    cases hm8 : cs.drop 8 with
    | nil =>
      rw [hm8] at hw
      rw [show subId [] = [] from by simp only [subId]] at hw
      cases hw
    | cons d ds =>
      rw [hm8] at hw
      by_cases hmid : matchesId (d :: ds) = true
      · have hd : ('I' == d) = true := by
          rw [matchesId_cons] at hmid
          simp only [Bool.and_eq_true] at hmid
          exact hmid.1.1
        have hdI : d = 'I' := (beq_iff_eq.mp hd).symm
        rw [hdI]
        rfl
      · have hmid2 : matchesId (d :: ds) = false := by simpa using hmid
        rw [show subId (d :: ds) = d :: subId ds from by
            simp only [subId, hmid2, Bool.false_eq_true, if_false]] at hw
        exact hw
  rw [hfull] at h
  cases h

theorem matchesPatient_cons_subPatient (c : Char) (cs : List Char)
    (h : matchesPatient (c :: cs) = false) :
    matchesPatient (c :: subPatient cs) = false := by
  by_contra hx
  rw [Bool.not_eq_false, matchesPatient_cons] at hx
  simp only [Bool.and_eq_true] at hx
  obtain ⟨⟨hP, hpre⟩, hw⟩ := hx
  obtain ⟨hpre2, hdropEq⟩ := prefix_through_subPatient "atient: ".data (by decide) cs hpre
  have hlen : ("atient: ".data).length = 8 := rfl
  rw [hlen] at hdropEq
  rw [hdropEq] at hw
  have hfull : matchesPatient (c :: cs) = true := by
    rw [matchesPatient_cons]
    simp only [Bool.and_eq_true]
    refine ⟨⟨hP, hpre2⟩, ?_⟩
    cases hm8 : cs.drop 8 with
    | nil =>
      rw [hm8] at hw
      rw [show subPatient [] = [] from by simp only [subPatient]] at hw
      cases hw
    | cons d ds =>
      rw [hm8] at hw
      by_cases hmid : matchesPatient (d :: ds) = true
      · have hd : ('P' == d) = true := by
          rw [matchesPatient_cons] at hmid
          simp only [Bool.and_eq_true] at hmid
          exact hmid.1.1
        have hdP : d = 'P' := (beq_iff_eq.mp hd).symm
        rw [hdP]
        rfl
      · have hmid2 : matchesPatient (d :: ds) = false := by simpa using hmid
        rw [show subPatient (d :: ds) = d :: subPatient ds from by
            simp only [subPatient, hmid2, Bool.false_eq_true, if_false]] at hw
        exact hw
  rw [hfull] at h
  cases h

theorem matchesId_cons_subId (c : Char) (cs : List Char)
    (h : matchesId (c :: cs) = false) :
    matchesId (c :: subId cs) = false := by
  by_contra hx
  rw [Bool.not_eq_false, matchesId_cons] at hx
  simp only [Bool.and_eq_true] at hx
  obtain ⟨⟨hI, hpre⟩, hd⟩ := hx
  obtain ⟨hpre2, hdropEq⟩ := prefix_through_subId "D: ".data (by decide) cs hpre
  have hlen : ("D: ".data).length = 3 := rfl
  rw [hlen] at hdropEq
  rw [hdropEq] at hd
  have hfull : matchesId (c :: cs) = true := by
    rw [matchesId_cons]
    simp only [Bool.and_eq_true]
    refine ⟨⟨hI, hpre2⟩, ?_⟩
    cases hm3 : cs.drop 3 with
    | nil =>
      rw [hm3] at hd
      rw [show subId [] = [] from by simp only [subId]] at hd
      cases hd
    | cons d ds =>
      rw [hm3] at hd
      by_cases hmid : matchesId (d :: ds) = true
      · exfalso
        rw [show subId (d :: ds) =
              idRepl ++ subId (((d :: ds).drop 4).dropWhile isDigitChar) from by
            simp only [subId, hmid, if_true]] at hd
        have hfalse : headIsDigit (idRepl ++
            subId (((d :: ds).drop 4).dropWhile isDigitChar)) = false := rfl
        rw [hfalse] at hd
        cases hd
      · have hmid2 : matchesId (d :: ds) = false := by simpa using hmid
        rw [show subId (d :: ds) = d :: subId ds from by
            simp only [subId, hmid2, Bool.false_eq_true, if_false]] at hd
        exact hd
  rw [hfull] at h
  cases h

theorem hasMatchPatient_subPatient_bounded :
    ∀ n (l : List Char), l.length ≤ n → hasMatchPatient (subPatient l) = false := by
  intro n
  induction n with
  | zero =>
    intro l hl
    rw [List.length_eq_zero.mp (Nat.le_zero.mp hl)]
    simp only [subPatient]
    rfl
  | succ n ih =>
    intro l hl
    cases l with
    | nil =>
      simp only [subPatient]
      rfl
    | cons c cs =>
      by_cases hm : matchesPatient (c :: cs) = true
      · rw [show subPatient (c :: cs) =
              patientRepl ++ subPatient (((c :: cs).drop 9).dropWhile isWordChar) from by
            simp only [subPatient, hm, if_true]]
        rw [hasMatchPatient_patientRepl_append]
        refine ih _ ?_
        calc (((c :: cs).drop 9).dropWhile isWordChar).length
            ≤ ((c :: cs).drop 9).length := (List.dropWhile_suffix _).sublist.length_le
          _ = (c :: cs).length - 9 := by rw [List.length_drop]
          _ ≤ (n + 1) - 9 := Nat.sub_le_sub_right hl 9
          _ ≤ n := by omega
      · have hm2 : matchesPatient (c :: cs) = false := by simpa using hm
        rw [show subPatient (c :: cs) = c :: subPatient cs from by
            simp only [subPatient, hm2, Bool.false_eq_true, if_false]]
        simp only [hasMatchPatient, matchesPatient_cons_subPatient c cs hm2, Bool.false_or]
        refine ih cs ?_
        simpa using Nat.le_of_succ_le_succ (by simpa using hl)

theorem hasMatchId_subId_bounded :
    ∀ n (l : List Char), l.length ≤ n → hasMatchId (subId l) = false := by
  intro n
  induction n with
  | zero =>
    intro l hl
    rw [List.length_eq_zero.mp (Nat.le_zero.mp hl)]
    simp only [subId]
    rfl
  | succ n ih =>
    intro l hl
    cases l with
    | nil =>
      simp only [subId]
      rfl
    | cons c cs =>
      by_cases hm : matchesId (c :: cs) = true
      · rw [show subId (c :: cs) =
              idRepl ++ subId (((c :: cs).drop 4).dropWhile isDigitChar) from by
            simp only [subId, hm, if_true]]
        rw [hasMatchId_idRepl_append]
        refine ih _ ?_
        calc (((c :: cs).drop 4).dropWhile isDigitChar).length
            ≤ ((c :: cs).drop 4).length := (List.dropWhile_suffix _).sublist.length_le
          _ = (c :: cs).length - 4 := by rw [List.length_drop]
          _ ≤ (n + 1) - 4 := Nat.sub_le_sub_right hl 4
          _ ≤ n := by omega
      · have hm2 : matchesId (c :: cs) = false := by simpa using hm
        rw [show subId (c :: cs) = c :: subId cs from by
            simp only [subId, hm2, Bool.false_eq_true, if_false]]
        simp only [hasMatchId, matchesId_cons_subId c cs hm2, Bool.false_or]
        refine ih cs ?_
        simpa using Nat.le_of_succ_le_succ (by simpa using hl)

theorem hasMatchPatient_subId_bounded :
    ∀ n (l : List Char), l.length ≤ n → hasMatchPatient l = false →
      hasMatchPatient (subId l) = false := by
  intro n
  induction n with
  | zero =>
    intro l hl _
    rw [List.length_eq_zero.mp (Nat.le_zero.mp hl)]
    simp only [subId]
    rfl
  | succ n ih =>
    intro l hl h
    cases l with
    | nil =>
      simp only [subId]
      rfl
    | cons c cs =>
      obtain ⟨hmp, hrest⟩ := hasMatchPatient_cons_false c cs h
      by_cases hm : matchesId (c :: cs) = true
      · rw [show subId (c :: cs) =
              idRepl ++ subId (((c :: cs).drop 4).dropWhile isDigitChar) from by
            simp only [subId, hm, if_true]]
        rw [hasMatchPatient_idRepl_append]
        refine ih _ ?_ ?_
        · calc (((c :: cs).drop 4).dropWhile isDigitChar).length
              ≤ ((c :: cs).drop 4).length := (List.dropWhile_suffix _).sublist.length_le
            _ = (c :: cs).length - 4 := by rw [List.length_drop]
            _ ≤ (n + 1) - 4 := Nat.sub_le_sub_right hl 4
            _ ≤ n := by omega
        · refine hasMatchPatient_suffix (c :: cs) _ ?_ h
          exact (List.dropWhile_suffix _).trans (List.drop_suffix 4 (c :: cs))
      · have hm2 : matchesId (c :: cs) = false := by simpa using hm
        rw [show subId (c :: cs) = c :: subId cs from by
            simp only [subId, hm2, Bool.false_eq_true, if_false]]
        simp only [hasMatchPatient, matchesPatient_cons_subId c cs hmp, Bool.false_or]
        refine ih cs ?_ hrest
        simpa using Nat.le_of_succ_le_succ (by simpa using hl)

theorem hasMatchPatient_subPatient (l : List Char) :
    hasMatchPatient (subPatient l) = false :=
  hasMatchPatient_subPatient_bounded l.length l le_rfl

theorem hasMatchId_subId (l : List Char) :
    hasMatchId (subId l) = false :=
  hasMatchId_subId_bounded l.length l le_rfl

theorem hasMatchPatient_subId (l : List Char) (h : hasMatchPatient l = false) :
    hasMatchPatient (subId l) = false :=
  hasMatchPatient_subId_bounded l.length l le_rfl h

/-- C9. The redaction function (total and pure by construction in this
embedding, as in the source, where `re.sub` never raises on `str` input) is
idempotent: a second pass finds no occurrence of either pattern, because each
pass removes every occurrence of its own pattern, the substituted placeholder
text re-matches neither pattern, and the ID pass cannot manufacture a new
`Patient: `-plus-word match. -/
theorem redact_idempotent (x : String) :
    redact_pii (redact_pii x) = redact_pii x := by
  unfold redact_pii
  show (⟨subId (subPatient (subId (subPatient x.data)))⟩ : String) =
    ⟨subId (subPatient x.data)⟩
  have hP : hasMatchPatient (subPatient x.data) = false := hasMatchPatient_subPatient _
  have hPz : hasMatchPatient (subId (subPatient x.data)) = false :=
    hasMatchPatient_subId _ hP
  have hIz : hasMatchId (subId (subPatient x.data)) = false := hasMatchId_subId _
  rw [subPatient_of_no_match _ hPz, subId_of_no_match _ hIz]

end AutoAuth
